import Mathlib

/-
  Shallow embedding of the URL-shortening core of the repository:
  - src/types/index.ts        (data model)
  - src/utils/validation.ts   (validateUrlRequest, validateUrlRequests, helpers)
  - src/services/storage.ts   (StorageService)
  - src/services/urlService.ts (UrlService)

  JavaScript `Date` values are embedded as `Int` (milliseconds since epoch),
  which is exactly the information a `Date` carries.  Ambient effects of the
  JS runtime are passed explicitly:
  - `Math.random`-driven code generation becomes an oracle `gen : Nat → String`
    giving the k-th random code drawn, with the draw counter threaded through;
  - `uuidv4()` becomes an oracle `ids : Nat → String`;
  - `new Date()` becomes an explicit `now : Int`;
  - the WHATWG `new URL(u)` well-formedness-plus-protocol check of
    `isValidUrl` becomes an abstract predicate `validUrl : String → Bool`
    (the claims under study do not depend on its internals);
  - `localStorage` becomes an explicit value: the serialized collection is an
    `Option (List StoredUrl)` (none = key absent).
  String trimming is implemented over character lists with the same
  observable behaviour as JS `String.prototype.trim` on the inputs involved.
-/

namespace UrlShortener

/-- Embedding of JS `String.prototype.trim`: drop leading and trailing
whitespace.  Implemented over the character list so it reduces in the
kernel. -/
def jsTrimLeft : List Char → List Char
  | [] => []
  | c :: cs => if c.isWhitespace then jsTrimLeft cs else c :: cs

/-- Trim both ends of a string (JS `s.trim()`). -/
def jsTrim (s : String) : String :=
  String.mk ((jsTrimLeft (jsTrimLeft s.data).reverse).reverse)

/-- Character class `[a-zA-Z0-9]` used by the shortcode regex and by
`sanitizeShortcode`'s `[^a-zA-Z0-9]` replacement. -/
def jsIsAlphanum (c : Char) : Bool :=
  ('a' ≤ c && c ≤ 'z') || ('A' ≤ c && c ≤ 'Z') || ('0' ≤ c && c ≤ '9')

/-- Embedding of JS `Array.prototype.find`: first element satisfying `p`. -/
def jsFind {α : Type} (p : α → Bool) : List α → Option α
  | [] => none
  | a :: l => if p a then some a else jsFind p l

/-- Index of the first element satisfying `p`, counting from `i`. -/
def jsFindIndexAux {α : Type} (p : α → Bool) : List α → Nat → Option Nat
  | [], _ => none
  | a :: l, i => if p a then some i else jsFindIndexAux p l (i + 1)

/-- Embedding of JS `Array.prototype.findIndex`: index of the first match,
`-1` when there is none. -/
def jsFindIndex {α : Type} (l : List α) (p : α → Bool) : Int :=
  match jsFindIndexAux p l 0 with
  | some i => Int.ofNat i
  | none => -1

/-- Enumerate a list with indices starting at `n` (JS `forEach` indices). -/
def enumFrom {α : Type} (n : Nat) : List α → List (Nat × α)
  | [] => []
  | a :: l => (n, a) :: enumFrom (n + 1) l

/-- Data model: `geoLocation` field of `ClickEvent` (types/index.ts). -/
structure GeoLocation where
  country : Option String
  city : Option String
deriving Repr, DecidableEq

/-- Data model: `ClickEvent` (types/index.ts); `timestamp` is a `Date`,
embedded as milliseconds. -/
structure ClickEvent where
  id : String
  timestamp : Int
  referrer : String
  userAgent : String
  ipAddress : Option String
  geoLocation : Option GeoLocation
deriving Repr, DecidableEq

/-- Data model: `ShortUrl` (types/index.ts); `createdAt`/`expiresAt` are
`Date`s, embedded as milliseconds. -/
structure ShortUrl where
  id : String
  originalUrl : String
  shortcode : String
  createdAt : Int
  expiresAt : Int
  validityMinutes : Int
  clicks : List ClickEvent
  isCustomShortcode : Bool
deriving Repr, DecidableEq

/-- Data model: `CreateUrlRequest` (types/index.ts); optional fields are
`Option` (JS `undefined` = `none`). -/
structure CreateUrlRequest where
  originalUrl : String
  validityMinutes : Option Int
  customShortcode : Option String
deriving Repr, DecidableEq

/-- Data model: `ValidationError` (types/index.ts). -/
structure ValidationError where
  field : String
  message : String
deriving Repr, DecidableEq

/-- Validation errors of one request, keyed by its batch index
(the element type of `validateUrlRequests`' `errors`). -/
structure IndexedValidationErrors where
  index : Nat
  errors : List ValidationError
deriving Repr, DecidableEq

/-- Element type of `CreateUrlsResponse.errors` (types/index.ts).  The index
is an `Int` because the source computes it with `Array.findIndex`, which can
return `-1`. -/
structure IndexedError where
  index : Int
  error : String
deriving Repr, DecidableEq

/-- Data model: `CreateUrlsResponse` (types/index.ts). -/
structure CreateUrlsResponse where
  success : List ShortUrl
  errors : List IndexedError
deriving Repr, DecidableEq

/-- Validation: `isValidShortcode` of validation.ts — the regex
`^[a-zA-Z0-9]{3,20}$`. (Named with a `Fmt` suffix to keep it apart from
`UrlService.isValidShortcode`.) -/
def isValidShortcodeFmt (s : String) : Bool :=
  3 ≤ s.data.length && s.data.length ≤ 20 && s.data.all jsIsAlphanum

/-- Validation: `isValidValidityMinutes` of validation.ts.  On the `Int`
embedding the `Number.isInteger` conjunct is always true. -/
def isValidValidityMinutes (m : Int) : Bool :=
  0 < m && m ≤ 10080

/-- Validation: `sanitizeUrl` of validation.ts. -/
def sanitizeUrl (url : String) : String := jsTrim url

/-- Validation: `sanitizeShortcode` of validation.ts — trim, then strip every
character outside `[a-zA-Z0-9]`. -/
def sanitizeShortcode (s : String) : String :=
  String.mk ((jsTrim s).data.filter jsIsAlphanum)

/-- Validation: `validateUrlRequest` of validation.ts, parameterized by the
`isValidUrl` check `validUrl`.  Errors are pushed in source order:
originalUrl, then validityMinutes, then customShortcode format. -/
def validateUrlRequest (validUrl : String → Bool) (request : CreateUrlRequest) :
    List ValidationError :=
  let urlErrors : List ValidationError :=
    if request.originalUrl == "" || jsTrim request.originalUrl == "" then
      [⟨"originalUrl", "URL is required"⟩]
    else if !(validUrl (jsTrim request.originalUrl)) then
      [⟨"originalUrl", "Invalid URL format. Must start with http:// or https://"⟩]
    else []
  let validityErrors : List ValidationError :=
    match request.validityMinutes with
    | some m =>
      if !(isValidValidityMinutes m) then
        [⟨"validityMinutes",
          "Validity must be a positive integer between 1 and 10080 minutes (1 week)"⟩]
      else []
    | none => []
  let shortcodeErrors : List ValidationError :=
    match request.customShortcode with
    | some s =>
      if jsTrim s ≠ "" then
        if !(isValidShortcodeFmt (jsTrim s)) then
          [⟨"customShortcode",
            "Shortcode must be 3-20 characters long and contain only letters and numbers"⟩]
        else []
      else []
    | none => []
  urlErrors ++ validityErrors ++ shortcodeErrors

/-- Error pushed by the in-batch duplicate-shortcode check of
`validateUrlRequests`. -/
def duplicateShortcodeError : ValidationError :=
  ⟨"customShortcode", "Duplicate shortcode in request"⟩

/-- In-batch duplicate check of `validateUrlRequests`: the used-shortcode set
is threaded as a list; a request whose `customShortcode` is truthy and trims
non-empty either gets the duplicate error appended or registers its trimmed
code. -/
def checkDuplicate (request : CreateUrlRequest)
    (requestErrors : List ValidationError) (used : List String) :
    List ValidationError × List String :=
  match request.customShortcode with
  | some s =>
    if s ≠ "" && jsTrim s ≠ "" then
      let shortcode := jsTrim s
      if shortcode ∈ used then (requestErrors ++ [duplicateShortcodeError], used)
      else (requestErrors, used ++ [shortcode])
    else (requestErrors, used)
  | none => (requestErrors, used)

/-- Loop body of `validateUrlRequests` (`requests.forEach` with its running
`valid`, `errors` and `usedShortcodes` state). -/
def validateLoop (validUrl : String → Bool) :
    List (Nat × CreateUrlRequest) → List CreateUrlRequest →
    List IndexedValidationErrors → List String →
    List CreateUrlRequest × List IndexedValidationErrors
  | [], valid, errors, _ => (valid, errors)
  | (index, request) :: rest, valid, errors, used =>
    let baseErrors := validateUrlRequest validUrl request
    let checked := checkDuplicate request baseErrors used
    if checked.1.isEmpty then
      validateLoop validUrl rest (valid ++ [request]) errors checked.2
    else
      validateLoop validUrl rest valid (errors ++ [⟨index, checked.1⟩]) checked.2

/-- Validation: `validateUrlRequests` of validation.ts — whole-batch size
checks, then the per-request loop. -/
def validateUrlRequests (validUrl : String → Bool)
    (requests : List CreateUrlRequest) :
    List CreateUrlRequest × List IndexedValidationErrors :=
  if requests.length == 0 then
    ([], [⟨0, [⟨"general", "At least one URL is required"⟩]⟩])
  else if requests.length > 5 then
    ([], [⟨0, [⟨"general", "Maximum 5 URLs allowed per request"⟩]⟩])
  else
    validateLoop validUrl (enumFrom 0 requests) [] [] []

/-- Storage: `StorageService.isShortcodeInUse` — any stored record, expired
or not, with that exact shortcode. -/
def isShortcodeInUse (urls : List ShortUrl) (shortcode : String) : Bool :=
  urls.any (fun url => url.shortcode == shortcode)

/-- Storage: `StorageService.findByShortcode` — first record with the
shortcode, filtered by the expiry check `new Date() > found.expiresAt`
(strict comparison of millisecond instants). -/
def findByShortcode (urls : List ShortUrl) (now : Int) (shortcode : String) :
    Option ShortUrl :=
  match jsFind (fun url => url.shortcode == shortcode) urls with
  | some found => if now > found.expiresAt then none else some found
  | none => none

/-- Append a click to a record (`urls[urlIndex].clicks.push(clickEvent)`). -/
def pushClick (clickEvent : ClickEvent) (url : ShortUrl) : ShortUrl :=
  { url with clicks := url.clicks ++ [clickEvent] }

/-- Update of the collection performed by `StorageService.recordClick`:
append the click to the first record carrying the shortcode; `none` when no
record does (the `findIndex === -1` branch). -/
def recordClickList (shortcode : String) (clickEvent : ClickEvent) :
    List ShortUrl → Option (List ShortUrl)
  | [] => none
  | url :: rest =>
    if url.shortcode == shortcode then some (pushClick clickEvent url :: rest)
    else (recordClickList shortcode clickEvent rest).map (url :: ·)

/-- Storage: `StorageService.recordClick` — returns the collection as it is
persisted afterwards, paired with `true` exactly when the shortcode was
missing (the warning no-op branch, in which nothing is saved). No expiry
check is performed. -/
def recordClick (urls : List ShortUrl) (shortcode : String)
    (clickEvent : ClickEvent) : List ShortUrl × Bool :=
  match recordClickList shortcode clickEvent urls with
  | none => (urls, true)
  | some updated => (updated, false)

/-- Total clicks over the collection, as `getAnalytics` computes it
(`urls.reduce((sum, url) => sum + url.clicks.length, 0)`). -/
def totalClicksOf (urls : List ShortUrl) : Nat :=
  urls.foldl (fun sum url => sum + url.clicks.length) 0

/-- Result record of `StorageService.getAnalytics`. -/
structure Analytics where
  totalUrls : Nat
  totalClicks : Nat
  activeUrls : Nat
  expiredUrls : Nat
deriving Repr, DecidableEq

/-- Storage: `StorageService.getAnalytics` — totals recomputed from the full
collection; active iff `expiresAt > now`, expired iff `expiresAt <= now`. -/
def getAnalytics (urls : List ShortUrl) (now : Int) : Analytics :=
  { totalUrls := urls.length
    totalClicks := totalClicksOf urls
    activeUrls := (urls.filter (fun url => url.expiresAt > now)).length
    expiredUrls := (urls.filter (fun url => url.expiresAt ≤ now)).length }

/-- Serialized form of a `ClickEvent`: the JSON replacer of
`StorageService.saveUrls` turns the `timestamp` `Date` into its ISO-8601
string; every other field round-trips through JSON unchanged. -/
structure StoredClick where
  id : String
  timestamp : String
  referrer : String
  userAgent : String
  ipAddress : Option String
  geoLocation : Option GeoLocation
deriving Repr, DecidableEq

/-- Serialized form of a `ShortUrl`: `createdAt` and `expiresAt` become
ISO-8601 strings; nested clicks are serialized elementwise. -/
structure StoredUrl where
  id : String
  originalUrl : String
  shortcode : String
  createdAt : String
  expiresAt : String
  validityMinutes : Int
  clicks : List StoredClick
  isCustomShortcode : Bool
deriving Repr, DecidableEq

/-- Serialize one click (`saveUrls`' replacer on the `timestamp` key),
parameterized by the `Date.toISOString` encoding `enc`. -/
def serializeClick (enc : Int → String) (c : ClickEvent) : StoredClick :=
  ⟨c.id, enc c.timestamp, c.referrer, c.userAgent, c.ipAddress, c.geoLocation⟩

/-- Serialize one record (`saveUrls`' replacer on `createdAt`, `expiresAt`
and nested click `timestamp` keys). -/
def serializeUrl (enc : Int → String) (u : ShortUrl) : StoredUrl :=
  ⟨u.id, u.originalUrl, u.shortcode, enc u.createdAt, enc u.expiresAt,
   u.validityMinutes, u.clicks.map (serializeClick enc), u.isCustomShortcode⟩

/-- Storage: `StorageService.saveUrls` — the serialized blob written to
`localStorage` under `URLS_KEY`, with `Date.toISOString` as `enc`. -/
def saveUrls (enc : Int → String) (urls : List ShortUrl) : List StoredUrl :=
  urls.map (serializeUrl enc)

/-- Deserialize one click (`loadUrls`' `new Date(click.timestamp)`),
parameterized by the ISO-string-to-instant decoding `dec`. -/
def deserializeClick (dec : String → Int) (c : StoredClick) : ClickEvent :=
  ⟨c.id, dec c.timestamp, c.referrer, c.userAgent, c.ipAddress, c.geoLocation⟩

/-- Deserialize one record (`loadUrls`' `new Date(url.createdAt)`,
`new Date(url.expiresAt)` and the click map). -/
def deserializeUrl (dec : String → Int) (u : StoredUrl) : ShortUrl :=
  ⟨u.id, u.originalUrl, u.shortcode, dec u.createdAt, dec u.expiresAt,
   u.validityMinutes, u.clicks.map (deserializeClick dec), u.isCustomShortcode⟩

/-- Storage: `StorageService.loadUrls` — an absent `localStorage` key
(`stored = none`) yields the empty collection, otherwise the blob is parsed
and timestamps are revived through `dec`. -/
def loadUrls (dec : String → Int) (stored : Option (List StoredUrl)) :
    List ShortUrl :=
  match stored with
  | none => []
  | some parsed => parsed.map (deserializeUrl dec)

/-- Timestamps occurring in a click record, in serialization order. -/
def clickTimestamps (c : ClickEvent) : List Int := [c.timestamp]

/-- Timestamps occurring in one record (createdAt, expiresAt, then each
click's timestamp). -/
def urlTimestamps (u : ShortUrl) : List Int :=
  u.createdAt :: u.expiresAt :: u.clicks.flatMap clickTimestamps

/-- All timestamps stored across the collection. -/
def allTimestamps (urls : List ShortUrl) : List Int :=
  urls.flatMap urlTimestamps

/-- Service: `UrlService.generateUniqueShortcode`.  The source recurses with
an `attempts` counter starting at 0 and throws once `attempts > 10`; here the
counter is rendered as the number of tries left (`triesLeft = 11 - attempts`),
which makes the recursion structural.  `gen k` is the k-th random code drawn
by `generateShortcode(6)`; the result pairs the outcome with the advanced
draw counter. -/
def generateFrom (gen : Nat → String) (urls : List ShortUrl) :
    Nat → Nat → Except String String × Nat
  | k, 0 => (.error "Unable to generate unique shortcode after multiple attempts", k)
  | k, triesLeft + 1 =>
    let shortcode := gen k
    if isShortcodeInUse urls shortcode then generateFrom gen urls (k + 1) triesLeft
    else (.ok shortcode, k + 1)

/-- Service: `generateUniqueShortcode()` as called (default `attempts = 0`,
hence 11 tries: the guard `attempts > 10` first fails at the 12th entry). -/
def generateUniqueShortcode (gen : Nat → String) (urls : List ShortUrl)
    (k : Nat) : Except String String × Nat :=
  generateFrom gen urls k 11

/-- Truthiness test `request.customShortcode &&
request.customShortcode.trim() !== ''` of `createSingleUrl`. -/
def hasCustomShortcode (request : CreateUrlRequest) : Bool :=
  match request.customShortcode with
  | some s => s ≠ "" && jsTrim s ≠ ""
  | none => false

/-- JS `request.validityMinutes || 30`: `undefined` and the falsy number `0`
fall back to the default of 30 minutes. -/
def validityOrDefault (validityMinutes : Option Int) : Int :=
  match validityMinutes with
  | some v => if v == 0 then 30 else v
  | none => 30

/-- Record constructed by `createSingleUrl`:
`expiresAt = now.getTime() + validityMinutes * 60 * 1000`, empty clicks. -/
def mkShortUrl (newId sanitizedUrl shortcode : String) (now vm : Int)
    (isCustom : Bool) : ShortUrl :=
  ⟨newId, sanitizedUrl, shortcode, now, now + vm * 60 * 1000, vm, [], isCustom⟩

/-- Service: `UrlService.createSingleUrl` — resolve the shortcode (custom:
sanitize and reject when in use; otherwise generate), then build the record.
`newId` stands for the `uuidv4()` drawn on success; the second component is
the advanced random-draw counter (the custom path draws nothing, a failed
generation still consumes its draws). -/
def createSingleUrl (urls : List ShortUrl) (gen : Nat → String) (k : Nat)
    (newId : String) (now : Int) (request : CreateUrlRequest) :
    Except String ShortUrl × Nat :=
  let sanitizedUrl := sanitizeUrl request.originalUrl
  let vm := validityOrDefault request.validityMinutes
  if hasCustomShortcode request then
    let shortcode := sanitizeShortcode (request.customShortcode.getD "")
    if isShortcodeInUse urls shortcode then
      (.error ("Shortcode \"" ++ shortcode ++ "\" is already in use"), k)
    else
      (.ok (mkShortUrl newId sanitizedUrl shortcode now vm true), k)
  else
    match generateUniqueShortcode gen urls k with
    | (.ok shortcode, k') =>
      (.ok (mkShortUrl newId sanitizedUrl shortcode now vm false), k')
    | (.error msg, k') => (.error msg, k')

/-- Predicate of the `requests.findIndex` call in `createUrls`' catch block:
same `originalUrl` and same `customShortcode` (strict JS equality;
`undefined === undefined` holds, matching `none == none`). -/
def sameRequestFields (request : CreateUrlRequest) (r : CreateUrlRequest) : Bool :=
  r.originalUrl == request.originalUrl && r.customShortcode == request.customShortcode

/-- Loop of `createUrls` over the valid requests: `k` is the random-draw
counter, `j` counts the `uuidv4()` draws (one per success).  A failure is
reported at `requests.findIndex(...)` of the original input. -/
def processValid (urls : List ShortUrl) (gen ids : Nat → String) (now : Int)
    (requests : List CreateUrlRequest) :
    List CreateUrlRequest → Nat → Nat → List ShortUrl × List IndexedError
  | [], _, _ => ([], [])
  | request :: rest, k, j =>
    match createSingleUrl urls gen k (ids j) now request with
    | (.ok shortUrl, k') =>
      let tail := processValid urls gen ids now requests rest k' (j + 1)
      (shortUrl :: tail.1, tail.2)
    | (.error msg, k') =>
      let originalIndex := jsFindIndex requests (sameRequestFields request)
      let tail := processValid urls gen ids now requests rest k' j
      (tail.1, ⟨originalIndex, msg⟩ :: tail.2)

/-- Join of one request's validation messages
(`validationErrors.map(e => e.message).join(', ')`). -/
def joinMessages (errors : List ValidationError) : String :=
  String.intercalate ", " (errors.map (fun e => e.message))

/-- Service: `UrlService.createUrls` — validate the batch, report validation
errors, process the valid requests, and append the successes to the stored
collection (only when at least one succeeded; the append is what
`storageService.addUrls` persists).  Returns the response paired with the
resulting stored collection. -/
def createUrls (urls : List ShortUrl) (gen ids : Nat → String) (now : Int)
    (validUrl : String → Bool) (requests : List CreateUrlRequest) :
    CreateUrlsResponse × List ShortUrl :=
  let validated := validateUrlRequests validUrl requests
  let validationErrors : List IndexedError :=
    validated.2.map (fun e => ⟨Int.ofNat e.index, joinMessages e.errors⟩)
  let processed := processValid urls gen ids now requests validated.1 0 0
  let response : CreateUrlsResponse :=
    ⟨processed.1, validationErrors ++ processed.2⟩
  (response, if processed.1.length > 0 then urls ++ processed.1 else urls)

/-- Service: `UrlService.redirectUrl` — look up through `findByShortcode`;
a miss (absent or expired) raises `'Short URL not found or has expired'`;
a hit records the click through `recordClick` and returns the original URL
together with the collection as persisted afterwards.  The click event
(uuid, timestamp, referrer, userAgent, geolocation) is passed in as
`clickEvent`. -/
def redirectUrl (urls : List ShortUrl) (now : Int) (clickEvent : ClickEvent)
    (shortcode : String) : Except String (String × List ShortUrl) :=
  match findByShortcode urls now shortcode with
  | none => .error "Short URL not found or has expired"
  | some shortUrl =>
    .ok (shortUrl.originalUrl, (recordClick urls shortcode clickEvent).1)

/-- Service: `UrlService.isValidShortcode` — `findByShortcode(...) !== null`,
so the same expiry filter as lookup applies. -/
def isValidShortcode (urls : List ShortUrl) (now : Int) (shortcode : String) :
    Bool :=
  (findByShortcode urls now shortcode).isSome

/-- Modelled from the spec for claim C4 ("indices in errors are positions in
the original input sequence"): reference variant of the validation loop whose
valid list keeps each request paired with its original batch index. -/
def validateLoopIdx (validUrl : String → Bool) :
    List (Nat × CreateUrlRequest) → List (Nat × CreateUrlRequest) →
    List IndexedValidationErrors → List String →
    List (Nat × CreateUrlRequest) × List IndexedValidationErrors
  | [], valid, errors, _ => (valid, errors)
  | (index, request) :: rest, valid, errors, used =>
    let baseErrors := validateUrlRequest validUrl request
    let checked := checkDuplicate request baseErrors used
    if checked.1.isEmpty then
      validateLoopIdx validUrl rest (valid ++ [(index, request)]) errors checked.2
    else
      validateLoopIdx validUrl rest valid (errors ++ [⟨index, checked.1⟩]) checked.2

/-- Modelled from the spec for claim C4: `validateUrlRequests` with the
index-carrying valid list. -/
def validateUrlRequestsIdx (validUrl : String → Bool)
    (requests : List CreateUrlRequest) :
    List (Nat × CreateUrlRequest) × List IndexedValidationErrors :=
  if requests.length == 0 then
    ([], [⟨0, [⟨"general", "At least one URL is required"⟩]⟩])
  else if requests.length > 5 then
    ([], [⟨0, [⟨"general", "Maximum 5 URLs allowed per request"⟩]⟩])
  else
    validateLoopIdx validUrl (enumFrom 0 requests) [] [] []

/-- Modelled from the spec for claim C4: processing loop that reports each
creation failure at the request's own original index instead of re-deriving
it with `findIndex`. -/
def processValidIdx (urls : List ShortUrl) (gen ids : Nat → String)
    (now : Int) :
    List (Nat × CreateUrlRequest) → Nat → Nat →
    List ShortUrl × List IndexedError
  | [], _, _ => ([], [])
  | (index, request) :: rest, k, j =>
    match createSingleUrl urls gen k (ids j) now request with
    | (.ok shortUrl, k') =>
      let tail := processValidIdx urls gen ids now rest k' (j + 1)
      (shortUrl :: tail.1, tail.2)
    | (.error msg, k') =>
      let tail := processValidIdx urls gen ids now rest k' j
      (tail.1, ⟨Int.ofNat index, msg⟩ :: tail.2)

/-- Modelled from the spec for claim C4: `createUrls` with creation failures
reported at the failing request's own original position.  Comparing
`createUrls` against this reference settles whether the indices of the
response are original input positions. -/
def createUrlsIndexed (urls : List ShortUrl) (gen ids : Nat → String)
    (now : Int) (validUrl : String → Bool)
    (requests : List CreateUrlRequest) :
    CreateUrlsResponse × List ShortUrl :=
  let validated := validateUrlRequestsIdx validUrl requests
  let validationErrors : List IndexedError :=
    validated.2.map (fun e => ⟨Int.ofNat e.index, joinMessages e.errors⟩)
  let processed := processValidIdx urls gen ids now validated.1 0 0
  let response : CreateUrlsResponse :=
    ⟨processed.1, validationErrors ++ processed.2⟩
  (response, if processed.1.length > 0 then urls ++ processed.1 else urls)

/-- Used-shortcode set of the validation loop after processing a prefix of
the enumerated batch (proof auxiliary; mirrors the `used` threading of
`validateLoop`). -/
def usedAfter : List (Nat × CreateUrlRequest) → List String → List String
  | [], used => used
  | (_, request) :: rest, used =>
    usedAfter rest (checkDuplicate request [] used).2

/-- Joined message list of a single validation error. -/
theorem joinMessages_one (f m : String) : joinMessages [⟨f, m⟩] = m := rfl

/-- Folding click counts starting from an accumulator. -/
theorem totalClicks_foldl (urls : List ShortUrl) :
    ∀ n : Nat, urls.foldl (fun sum url => sum + url.clicks.length) n =
      n + (urls.map (fun url => url.clicks.length)).sum := by
  induction urls with
  | nil => intro n; simp
  | cons u rest ih =>
    intro n
    simp only [List.foldl_cons, List.map_cons, List.sum_cons, ih]
    omega

/-- Total clicks as a sum over the collection. -/
theorem totalClicksOf_eq_sum (urls : List ShortUrl) :
    totalClicksOf urls = (urls.map (fun url => url.clicks.length)).sum := by
  simpa using totalClicks_foldl urls 0

/-- Partition of the collection by the expiry test. -/
theorem length_filter_expiry (urls : List ShortUrl) (now : Int) :
    (urls.filter (fun url => url.expiresAt > now)).length +
      (urls.filter (fun url => url.expiresAt ≤ now)).length = urls.length := by
  induction urls with
  | nil => simp
  | cons u rest ih =>
    simp only [gt_iff_lt] at ih ⊢
    by_cases h : now < u.expiresAt
    · have h' : ¬ (u.expiresAt ≤ now) := by omega
      simp [List.filter_cons, h, h']
      omega
    · have h' : u.expiresAt ≤ now := by omega
      simp [List.filter_cons, h, h']
      omega

/-- C7: for every state of the stored collection and every now,
`getAnalytics` returns `totalUrls` equal to the number of stored records,
`totalClicks` equal to the sum of the click-sequence lengths, and
`activeUrls + expiredUrls = totalUrls`, the partition being `expiresAt`
versus now (active iff `now < expiresAt`). -/
theorem getAnalytics_invariant (urls : List ShortUrl) (now : Int) :
    (getAnalytics urls now).totalUrls = urls.length ∧
    (getAnalytics urls now).totalClicks =
      (urls.map (fun url => url.clicks.length)).sum ∧
    (getAnalytics urls now).activeUrls + (getAnalytics urls now).expiredUrls =
      (getAnalytics urls now).totalUrls ∧
    (getAnalytics urls now).activeUrls =
      (urls.filter (fun url => now < url.expiresAt)).length := by
  refine ⟨rfl, totalClicksOf_eq_sum urls, ?_, rfl⟩
  simpa [getAnalytics] using length_filter_expiry urls now

/-- C6: an empty batch or one with more than 5 entries is rejected whole:
a single general error at index 0 (the "At least one URL is required"
message when empty, the "Maximum 5 URLs allowed per request" message when
oversized), no success, and the stored collection untouched. -/
theorem batch_size_whole_rejection (urls : List ShortUrl)
    (gen ids : Nat → String) (now : Int) (validUrl : String → Bool)
    (requests : List CreateUrlRequest)
    (h : requests.length = 0 ∨ requests.length > 5) :
    (createUrls urls gen ids now validUrl requests).1.success = [] ∧
    (createUrls urls gen ids now validUrl requests).1.errors =
      [⟨0, if requests.length = 0 then "At least one URL is required"
           else "Maximum 5 URLs allowed per request"⟩] ∧
    (createUrls urls gen ids now validUrl requests).2 = urls := by
  rcases h with h | h
  · simp [createUrls, validateUrlRequests, h, processValid, joinMessages_one]
  · have h0 : ¬ (requests.length = 0) := by omega
    simp [createUrls, validateUrlRequests, h, h0, processValid, joinMessages_one]

/-- C6 witness: six requests are rejected with the single size error at
index 0, zero successes, store unchanged. -/
theorem batch_size_whole_rejection_witness :
    ([(⟨"https://a.example", none, none⟩ : CreateUrlRequest), ⟨"https://a.example", none, none⟩,
      ⟨"https://a.example", none, none⟩, ⟨"https://a.example", none, none⟩,
      ⟨"https://a.example", none, none⟩, ⟨"https://a.example", none, none⟩].length = 0 ∨
     ([(⟨"https://a.example", none, none⟩ : CreateUrlRequest), ⟨"https://a.example", none, none⟩,
      ⟨"https://a.example", none, none⟩, ⟨"https://a.example", none, none⟩,
      ⟨"https://a.example", none, none⟩, ⟨"https://a.example", none, none⟩].length > 5)) ∧
    (createUrls [] (fun _ => "gen123") (fun _ => "id") 0 (fun _ => true)
      [⟨"https://a.example", none, none⟩, ⟨"https://a.example", none, none⟩,
       ⟨"https://a.example", none, none⟩, ⟨"https://a.example", none, none⟩,
       ⟨"https://a.example", none, none⟩, ⟨"https://a.example", none, none⟩]).1.success = [] := by
  refine ⟨by decide, ?_⟩
  exact (batch_size_whole_rejection [] (fun _ => "gen123") (fun _ => "id") 0
    (fun _ => true) _ (by decide)).1

/-- Appending a click to the first match of the shortcode: the successful
case of `recordClickList`, split off as a decomposition. -/
theorem recordClickList_found (shortcode : String) (clickEvent : ClickEvent) :
    ∀ urls : List ShortUrl, (∃ u ∈ urls, u.shortcode = shortcode) →
      ∃ pre u post, urls = pre ++ u :: post ∧
        (∀ v ∈ pre, v.shortcode ≠ shortcode) ∧ u.shortcode = shortcode ∧
        recordClickList shortcode clickEvent urls =
          some (pre ++ pushClick clickEvent u :: post) := by
  intro urls
  induction urls with
  | nil => rintro ⟨u, hu, _⟩; exact absurd hu (List.not_mem_nil u)
  | cons w rest ih =>
    intro hex
    by_cases hw : w.shortcode = shortcode
    · refine ⟨[], w, rest, by simp, by simp, hw, ?_⟩
      simp [recordClickList, hw]
    · have hex' : ∃ u ∈ rest, u.shortcode = shortcode := by
        rcases hex with ⟨u, hu, hus⟩
        rcases List.mem_cons.mp hu with h | h
        · exact absurd (h ▸ hus) hw
        · exact ⟨u, h, hus⟩
      rcases ih hex' with ⟨pre, u, post, hsplit, hpre, hus, heq⟩
      refine ⟨w :: pre, u, post, by simp [hsplit], ?_, hus, ?_⟩
      · intro v hv
        rcases List.mem_cons.mp hv with h | h
        · exact h ▸ hw
        · exact hpre v h
      · have hw' : (w.shortcode == shortcode) = false := by
          simpa using hw
        simp [recordClickList, hw', heq]

/-- A miss leaves `recordClickList` with no update. -/
theorem recordClickList_missing (shortcode : String) (clickEvent : ClickEvent) :
    ∀ urls : List ShortUrl, (∀ u ∈ urls, u.shortcode ≠ shortcode) →
      recordClickList shortcode clickEvent urls = none := by
  intro urls
  induction urls with
  | nil => intro _; rfl
  | cons w rest ih =>
    intro hall
    have hw : (w.shortcode == shortcode) = false := by
      simpa using hall w (List.mem_cons_self w rest)
    simp [recordClickList, hw]
    exact ih (fun u hu => hall u (List.mem_cons_of_mem w hu))

/-- Click sums over an append. -/
theorem totalClicksOf_append (l₁ l₂ : List ShortUrl) :
    totalClicksOf (l₁ ++ l₂) = totalClicksOf l₁ + totalClicksOf l₂ := by
  simp [totalClicksOf_eq_sum]

/-- C9: `recordClick` appends the click to the first record carrying the
shortcode and persists the whole collection — with no expiry check, so a
click lands on an expired record as well (third conjunct: the total click
count still grows by one when the matching record is already expired) —
while an absent shortcode is a warning no-op leaving the collection exactly
as it was. -/
theorem recordClick_spec (urls : List ShortUrl) (shortcode : String)
    (clickEvent : ClickEvent) (now : Int) :
    ((∃ u ∈ urls, u.shortcode = shortcode) →
      ∃ pre u post, urls = pre ++ u :: post ∧
        (∀ v ∈ pre, v.shortcode ≠ shortcode) ∧ u.shortcode = shortcode ∧
        recordClick urls shortcode clickEvent =
          (pre ++ pushClick clickEvent u :: post, false)) ∧
    ((∀ u ∈ urls, u.shortcode ≠ shortcode) →
      recordClick urls shortcode clickEvent = (urls, true)) ∧
    ((∃ u ∈ urls, u.shortcode = shortcode ∧ u.expiresAt < now) →
      totalClicksOf (recordClick urls shortcode clickEvent).1 =
        totalClicksOf urls + 1 ∧
      (recordClick urls shortcode clickEvent).2 = false) := by
  refine ⟨?_, ?_, ?_⟩
  · intro hex
    rcases recordClickList_found shortcode clickEvent urls hex with
      ⟨pre, u, post, hsplit, hpre, hus, heq⟩
    exact ⟨pre, u, post, hsplit, hpre, hus, by simp [recordClick, heq]⟩
  · intro hall
    simp [recordClick, recordClickList_missing shortcode clickEvent urls hall]
  · intro hex
    rcases hex with ⟨u0, hu0, hus0, _⟩
    rcases recordClickList_found shortcode clickEvent urls ⟨u0, hu0, hus0⟩ with
      ⟨pre, u, post, hsplit, hpre, hus, heq⟩
    constructor
    · rw [hsplit]
      simp only [recordClick, hsplit ▸ heq]
      rw [totalClicksOf_append, totalClicksOf_append]
      simp [totalClicksOf_eq_sum, pushClick]
      omega
    · simp [recordClick, heq]

/-- C9 witness: a concrete collection whose only record is expired at
now = 5000 still receives the click (count grows, no warning), and an absent
code is a pure no-op. -/
theorem recordClick_spec_witness :
    (∃ u ∈ [(⟨"i1", "https://x.example", "abc123", 0, 1000, 30, [], false⟩ : ShortUrl)],
       u.shortcode = "abc123" ∧ u.expiresAt < 5000) ∧
    totalClicksOf (recordClick
        [(⟨"i1", "https://x.example", "abc123", 0, 1000, 30, [], false⟩ : ShortUrl)]
        "abc123" ⟨"c1", 5000, "direct", "ua", none, none⟩).1 =
      totalClicksOf
        [(⟨"i1", "https://x.example", "abc123", 0, 1000, 30, [], false⟩ : ShortUrl)] + 1 ∧
    recordClick [(⟨"i1", "https://x.example", "abc123", 0, 1000, 30, [], false⟩ : ShortUrl)]
        "zzz" ⟨"c1", 5000, "direct", "ua", none, none⟩ =
      ([(⟨"i1", "https://x.example", "abc123", 0, 1000, 30, [], false⟩ : ShortUrl)], true) := by
  refine ⟨by decide, ?_, ?_⟩
  · exact ((recordClick_spec
      [(⟨"i1", "https://x.example", "abc123", 0, 1000, 30, [], false⟩ : ShortUrl)]
      "abc123" ⟨"c1", 5000, "direct", "ua", none, none⟩ 5000).2.2 (by decide)).1
  · exact (recordClick_spec
      [(⟨"i1", "https://x.example", "abc123", 0, 1000, 30, [], false⟩ : ShortUrl)]
      "zzz" ⟨"c1", 5000, "direct", "ua", none, none⟩ 5000).2.1 (by decide)

/-- Element produced by `jsFind` is a member satisfying the predicate. -/
theorem jsFind_some {α : Type} {p : α → Bool} :
    ∀ {l : List α} {a : α}, jsFind p l = some a → a ∈ l ∧ p a = true := by
  intro l
  induction l with
  | nil => intro a h; exact absurd h (by simp [jsFind])
  | cons x rest ih =>
    intro a h
    by_cases hx : p x = true
    · have : some x = some a := by simpa [jsFind, hx] using h
      cases this
      exact ⟨List.mem_cons_self x rest, hx⟩
    · have h' : jsFind p rest = some a := by
        simpa [jsFind, hx] using h
      rcases ih h' with ⟨hm, hp⟩
      exact ⟨List.mem_cons_of_mem x hm, hp⟩

/-- A member satisfying the predicate makes `jsFind` hit. -/
theorem jsFind_of_mem {α : Type} {p : α → Bool} :
    ∀ {l : List α} {a : α}, a ∈ l → p a = true →
      ∃ b, jsFind p l = some b ∧ p b = true := by
  intro l
  induction l with
  | nil => intro a h; exact absurd h (List.not_mem_nil a)
  | cons x rest ih =>
    intro a hmem hp
    by_cases hx : p x = true
    · exact ⟨x, by simp [jsFind, hx], hx⟩
    · rcases List.mem_cons.mp hmem with h | h
      · exact absurd (h ▸ hp) hx
      · rcases ih h hp with ⟨b, hb, hpb⟩
        exact ⟨b, by simp [jsFind, hx, hb], hpb⟩

/-- Under pairwise-distinct shortcodes, a shortcode determines the record. -/
theorem shortcode_unique {urls : List ShortUrl}
    (hp : urls.Pairwise (fun a b => a.shortcode ≠ b.shortcode)) :
    ∀ u ∈ urls, ∀ v ∈ urls, u.shortcode = v.shortcode → u = v := by
  induction urls with
  | nil => intro u hu; exact absurd hu (List.not_mem_nil u)
  | cons w rest ih =>
    rcases List.pairwise_cons.mp hp with ⟨hw, hrest⟩
    intro u hu v hv heq
    rcases List.mem_cons.mp hu with hu' | hu' <;>
      rcases List.mem_cons.mp hv with hv' | hv'
    · exact hu'.trans hv'.symm
    · exact absurd (hu' ▸ heq) (hw v hv')
    · exact absurd (hv' ▸ heq.symm) (hw u hu')
    · exact ih hrest u hu' v hv' heq

/-- C10 (implicit): `UrlService.isValidShortcode` applies the same expiry
filter as lookup: under the shortcode-uniqueness invariant it returns true
iff some stored record carries exactly that shortcode and its expiry has not
passed (`now ≤ expiresAt`, the code's strict `now > expiresAt` test
negated); a record whose expiry has passed yields false, indistinguishably
from a shortcode that was never created. -/
theorem isValidShortcode_expiry_filter (urls : List ShortUrl) (now : Int)
    (shortcode : String)
    (hp : urls.Pairwise (fun a b => a.shortcode ≠ b.shortcode)) :
    (isValidShortcode urls now shortcode = true ↔
      ∃ u ∈ urls, u.shortcode = shortcode ∧ now ≤ u.expiresAt) ∧
    (∀ u ∈ urls, u.shortcode = shortcode → u.expiresAt < now →
      isValidShortcode urls now shortcode = false) ∧
    ((∀ u ∈ urls, u.shortcode ≠ shortcode) →
      isValidShortcode urls now shortcode = false) := by
  have forward : isValidShortcode urls now shortcode = true →
      ∃ u ∈ urls, u.shortcode = shortcode ∧ now ≤ u.expiresAt := by
    intro h
    unfold isValidShortcode findByShortcode at h
    rcases hfind : jsFind (fun url => url.shortcode == shortcode) urls with _ | u
    · rw [hfind] at h; simp at h
    · rw [hfind] at h
      by_cases hexp : now > u.expiresAt
      · simp [hexp] at h
      · rcases jsFind_some hfind with ⟨hmem, hpu⟩
        exact ⟨u, hmem, by simpa using hpu, by omega⟩
  refine ⟨⟨forward, ?_⟩, ?_, ?_⟩
  · rintro ⟨u, hmem, hsu, hle⟩
    have hpu : (u.shortcode == shortcode) = true := by simpa using hsu
    rcases jsFind_of_mem (p := fun url => url.shortcode == shortcode) hmem hpu with
      ⟨v, hv, hpv⟩
    have hvmem : v ∈ urls := (jsFind_some hv).1
    have hvs : v.shortcode = shortcode := by simpa using hpv
    have huv : u = v := shortcode_unique hp u hmem v hvmem (hsu.trans hvs.symm)
    have hexp : ¬ (now > v.expiresAt) := by rw [← huv]; omega
    unfold isValidShortcode findByShortcode
    rw [hv]
    simp [hexp]
  · intro u hmem hsu hlt
    by_cases h : isValidShortcode urls now shortcode = true
    · rcases forward h with ⟨v, hvmem, hvs, hvle⟩
      have huv : u = v := shortcode_unique hp u hmem v hvmem (hsu.trans hvs.symm)
      rw [huv] at hlt
      omega
    · exact Bool.of_not_eq_true h
  · intro hall
    by_cases h : isValidShortcode urls now shortcode = true
    · rcases forward h with ⟨v, hvmem, hvs, _⟩
      exact absurd hvs (hall v hvmem)
    · exact Bool.of_not_eq_true h

/-- C10 witness: a store holding one expired and one live record; the live
code validates, the expired one and a never-created one both report false. -/
theorem isValidShortcode_expiry_filter_witness :
    ([(⟨"i1", "https://x.example", "old111", 0, 1000, 30, [], false⟩ : ShortUrl),
      ⟨"i2", "https://y.example", "new222", 0, 9000, 30, [], false⟩].Pairwise
        (fun a b => a.shortcode ≠ b.shortcode)) ∧
    isValidShortcode
        [(⟨"i1", "https://x.example", "old111", 0, 1000, 30, [], false⟩ : ShortUrl),
         ⟨"i2", "https://y.example", "new222", 0, 9000, 30, [], false⟩] 5000 "old111" = false := by
  refine ⟨by decide, ?_⟩
  exact (isValidShortcode_expiry_filter _ 5000 "old111" (by decide)).2.1
    ⟨"i1", "https://x.example", "old111", 0, 1000, 30, [], false⟩
    (by decide) rfl (by decide)

/-- C1 counterexample: at the boundary instant `expiresAt = now` the claim
says the lookup fails (its condition is `expiresAt <= now`), but the code's
check is the strict `new Date() > found.expiresAt`, so `findByShortcode`
still returns the record and `redirect` succeeds. -/
theorem redirect_boundary_counterexample :
    (⟨"i1", "https://x.example", "abc123", 0, 1000, 30, [], false⟩ : ShortUrl).expiresAt ≤ 1000 ∧
    findByShortcode [(⟨"i1", "https://x.example", "abc123", 0, 1000, 30, [], false⟩ : ShortUrl)]
        1000 "abc123" =
      some ⟨"i1", "https://x.example", "abc123", 0, 1000, 30, [], false⟩ ∧
    redirectUrl [(⟨"i1", "https://x.example", "abc123", 0, 1000, 30, [], false⟩ : ShortUrl)]
        1000 ⟨"c1", 1000, "direct", "ua", none, none⟩ "abc123" =
      .ok ("https://x.example",
        [pushClick ⟨"c1", 1000, "direct", "ua", none, none⟩
          ⟨"i1", "https://x.example", "abc123", 0, 1000, 30, [], false⟩]) :=
  ⟨by decide, rfl, rfl⟩

/-- C1 as amended: for every record whose expiry has strictly passed
(`expiresAt < now`), lookup is a miss and `redirect` fails with the
NotFoundOrExpired error, byte-identical to the failure for a shortcode that
was never created; `findByShortcode` reports not-found both when no record
matches and when every matching record has strictly expired. -/
theorem redirect_expired_strict (urls : List ShortUrl) (now : Int)
    (clickEvent : ClickEvent) (shortcode : String)
    (h : ∀ u ∈ urls, u.shortcode = shortcode → u.expiresAt < now) :
    findByShortcode urls now shortcode = none ∧
    redirectUrl urls now clickEvent shortcode =
      .error "Short URL not found or has expired" ∧
    redirectUrl urls now clickEvent shortcode =
      redirectUrl [] now clickEvent shortcode := by
  have hfind : findByShortcode urls now shortcode = none := by
    unfold findByShortcode
    rcases hf : jsFind (fun url => url.shortcode == shortcode) urls with _ | u
    · rw [hf]
    · rw [hf]
      rcases jsFind_some hf with ⟨hmem, hpu⟩
      have hlt : u.expiresAt < now := h u hmem (by simpa using hpu)
      simp [hlt]
  refine ⟨hfind, ?_, ?_⟩
  · unfold redirectUrl
    rw [hfind]
  · unfold redirectUrl
    rw [hfind]
    rfl

/-- C1 amended witness: a store whose single record for the code expired one
millisecond before now misses identically to the empty store. -/
theorem redirect_expired_strict_witness :
    (∀ u ∈ [(⟨"i1", "https://x.example", "abc123", 0, 1000, 30, [], false⟩ : ShortUrl)],
       u.shortcode = "abc123" → u.expiresAt < 1001) ∧
    findByShortcode [(⟨"i1", "https://x.example", "abc123", 0, 1000, 30, [], false⟩ : ShortUrl)]
        1001 "abc123" = none ∧
    redirectUrl [(⟨"i1", "https://x.example", "abc123", 0, 1000, 30, [], false⟩ : ShortUrl)]
        1001 ⟨"c1", 1001, "direct", "ua", none, none⟩ "abc123" =
      .error "Short URL not found or has expired" := by
  refine ⟨by decide, ?_, ?_⟩
  · exact (redirect_expired_strict
      [(⟨"i1", "https://x.example", "abc123", 0, 1000, 30, [], false⟩ : ShortUrl)]
      1001 ⟨"c1", 1001, "direct", "ua", none, none⟩ "abc123" (by decide)).1
  · exact (redirect_expired_strict
      [(⟨"i1", "https://x.example", "abc123", 0, 1000, 30, [], false⟩ : ShortUrl)]
      1001 ⟨"c1", 1001, "direct", "ua", none, none⟩ "abc123" (by decide)).2.1

/-- C3 counterexample: a store occupying codes "s0".."s9" and a generator
whose k-th draw is "s<k>".  The first 10 generated codes are all already in
use, yet generation succeeds on the 11th draw with "s10" — `createUrls`
records a created URL and no error for the request, refuting
"fails permanently after 10 failed attempts". -/
theorem generation_after_ten_collisions_counterexample :
    ((List.range 10).all (fun i => isShortcodeInUse
        ((List.range 10).map (fun n =>
          (⟨"i", "https://u.example", "s" ++ Nat.repr n, 0, 0, 1, [], false⟩ : ShortUrl)))
        ("s" ++ Nat.repr i)) = true) ∧
    generateUniqueShortcode (fun k => "s" ++ Nat.repr k)
        ((List.range 10).map (fun n =>
          (⟨"i", "https://u.example", "s" ++ Nat.repr n, 0, 0, 1, [], false⟩ : ShortUrl)))
        0 = (.ok "s10", 11) ∧
    ((createUrls
        ((List.range 10).map (fun n =>
          (⟨"i", "https://u.example", "s" ++ Nat.repr n, 0, 0, 1, [], false⟩ : ShortUrl)))
        (fun k => "s" ++ Nat.repr k) (fun _ => "id0") 0 (fun _ => true)
        [⟨"https://e.example", none, none⟩]).1.errors = [] ∧
      (createUrls
        ((List.range 10).map (fun n =>
          (⟨"i", "https://u.example", "s" ++ Nat.repr n, 0, 0, 1, [], false⟩ : ShortUrl)))
        (fun k => "s" ++ Nat.repr k) (fun _ => "id0") 0 (fun _ => true)
        [⟨"https://e.example", none, none⟩]).1.success.map (fun u => u.shortcode) = ["s10"]) :=
  ⟨by decide, rfl, rfl, rfl⟩

/-- Exhaustion of `generateFrom` under total collision: when every draw in
the window collides, all tries are consumed and the error is returned with
the draw counter advanced by the number of tries. -/
theorem generateFrom_all_collide (gen : Nat → String) (urls : List ShortUrl) :
    ∀ triesLeft k,
      (∀ i, i < triesLeft → isShortcodeInUse urls (gen (k + i)) = true) →
      generateFrom gen urls k triesLeft =
        (.error "Unable to generate unique shortcode after multiple attempts",
         k + triesLeft) := by
  intro triesLeft
  induction triesLeft with
  | zero => intro k _; simp [generateFrom]
  | succ n ih =>
    intro k h
    have h0 : isShortcodeInUse urls (gen k) = true := by
      simpa using h 0 (Nat.succ_pos n)
    have hrec := ih (k + 1) (fun i hi => by
      have := h (i + 1) (Nat.succ_lt_succ hi)
      simpa [Nat.add_assoc, Nat.add_comm 1 i] using this)
    simp only [generateFrom, h0, if_true]
    rw [hrec]
    congr 1
    omega

/-- C3 as amended: generation fails permanently only after 11 collisions
(the initial attempt plus 10 retries — the source's guard is
`attempts > 10` with `attempts` starting at 0): when the first 11 generated
codes are all already in use, `createUrls` records the generation-exhausted
message as a per-item creation failure at the request's index, creates
nothing, and leaves the store unchanged. -/
theorem generation_exhausted_after_eleven (gen ids : Nat → String)
    (urls : List ShortUrl) (now : Int) (validUrl : String → Bool)
    (request : CreateUrlRequest)
    (hnc : request.customShortcode = none)
    (hval : validateUrlRequest validUrl request = [])
    (h : ∀ i, i < 11 → isShortcodeInUse urls (gen i) = true) :
    generateUniqueShortcode gen urls 0 =
      (.error "Unable to generate unique shortcode after multiple attempts", 11) ∧
    (createUrls urls gen ids now validUrl [request]).1 =
      ⟨[], [⟨0, "Unable to generate unique shortcode after multiple attempts"⟩]⟩ ∧
    (createUrls urls gen ids now validUrl [request]).2 = urls := by
  have hgen : generateUniqueShortcode gen urls 0 =
      (.error "Unable to generate unique shortcode after multiple attempts", 11) := by
    have := generateFrom_all_collide gen urls 11 0
      (fun i hi => by simpa using h i hi)
    simpa [generateUniqueShortcode] using this
  have hv : validateUrlRequests validUrl [request] = ([request], []) := by
    simp [validateUrlRequests, validateLoop, enumFrom, hval, checkDuplicate, hnc]
  have hsingle : createSingleUrl urls gen 0 (ids 0) now request =
      (.error "Unable to generate unique shortcode after multiple attempts", 11) := by
    simp [createSingleUrl, hasCustomShortcode, hnc, hgen]
  have hfi : jsFindIndex [request] (sameRequestFields request) = 0 := by
    simp [jsFindIndex, jsFindIndexAux, sameRequestFields]
  have hp : processValid urls gen ids now [request] [request] 0 0 =
      ([], [⟨0, "Unable to generate unique shortcode after multiple attempts"⟩]) := by
    simp [processValid, hsingle, hfi]
  refine ⟨hgen, ?_, ?_⟩
  · simp [createUrls, hv, hp]
  · simp [createUrls, hv, hp]

/-- C3 amended witness: a constant generator colliding with a one-record
store exhausts after 11 draws and yields the per-item creation failure. -/
theorem generation_exhausted_after_eleven_witness :
    ((⟨"https://e.example", none, none⟩ : CreateUrlRequest).customShortcode = none) ∧
    (validateUrlRequest (fun _ => true) ⟨"https://e.example", none, none⟩ = []) ∧
    (∀ i, i < 11 → isShortcodeInUse
      [(⟨"i1", "https://u.example", "used11", 0, 0, 1, [], false⟩ : ShortUrl)]
      ((fun _ => "used11") i) = true) ∧
    (createUrls [(⟨"i1", "https://u.example", "used11", 0, 0, 1, [], false⟩ : ShortUrl)]
        (fun _ => "used11") (fun _ => "id0") 0 (fun _ => true)
        [⟨"https://e.example", none, none⟩]).1 =
      ⟨[], [⟨0, "Unable to generate unique shortcode after multiple attempts"⟩]⟩ := by
  refine ⟨rfl, by decide, by decide, ?_⟩
  exact (generation_exhausted_after_eleven (fun _ => "used11") (fun _ => "id0")
    [(⟨"i1", "https://u.example", "used11", 0, 0, 1, [], false⟩ : ShortUrl)]
    0 (fun _ => true) ⟨"https://e.example", none, none⟩
    rfl (by decide) (by decide)).2.1

/-- Enumeration preserves length. -/
theorem enumFrom_length {α : Type} : ∀ (n : Nat) (l : List α),
    (enumFrom n l).length = l.length := by
  intro n l
  induction l generalizing n with
  | nil => rfl
  | cons a rest ih => simp [enumFrom, ih]

/-- Each iteration of the validation loop accounts for exactly one request:
the final `valid` and `errors` sizes add the processed length to the
accumulators'. -/
theorem validateLoop_length (validUrl : String → Bool) :
    ∀ (l : List (Nat × CreateUrlRequest)) (valid : List CreateUrlRequest)
      (errors : List IndexedValidationErrors) (used : List String),
      (validateLoop validUrl l valid errors used).1.length +
        (validateLoop validUrl l valid errors used).2.length =
        valid.length + errors.length + l.length := by
  intro l
  induction l with
  | nil => intro valid errors used; simp [validateLoop]
  | cons p rest ih =>
    intro valid errors used
    rcases p with ⟨index, request⟩
    simp only [validateLoop]
    by_cases hc : (checkDuplicate request (validateUrlRequest validUrl request) used).1.isEmpty = true
    · rw [if_pos hc, ih]
      simp
      omega
    · rw [if_neg hc, ih]
      simp
      omega

/-- Each valid request yields exactly one success or one creation error. -/
theorem processValid_length (urls : List ShortUrl) (gen ids : Nat → String)
    (now : Int) (requests : List CreateUrlRequest) :
    ∀ (l : List CreateUrlRequest) (k j : Nat),
      (processValid urls gen ids now requests l k j).1.length +
        (processValid urls gen ids now requests l k j).2.length = l.length := by
  intro l
  induction l with
  | nil => intro k j; simp [processValid]
  | cons request rest ih =>
    intro k j
    rcases hs : createSingleUrl urls gen k (ids j) now request with ⟨res, k'⟩
    rcases res with msg | shortUrl
    · simp only [processValid, hs]
      have := ih k' j
      simp only [List.length_cons]
      omega
    · simp only [processValid, hs]
      have := ih k' (j + 1)
      simp only [List.length_cons]
      omega

/-- C2: for every batch of size 1 to 5, each request is accounted exactly
once — `success.length + errors.length = requests.length` in the
`createUrls` response. -/
theorem createUrls_accounting (urls : List ShortUrl) (gen ids : Nat → String)
    (now : Int) (validUrl : String → Bool)
    (requests : List CreateUrlRequest)
    (h1 : 1 ≤ requests.length) (h5 : requests.length ≤ 5) :
    (createUrls urls gen ids now validUrl requests).1.success.length +
      (createUrls urls gen ids now validUrl requests).1.errors.length =
      requests.length := by
  have h0 : (requests.length == 0) = false := by
    rw [beq_eq_false_iff_ne]
    omega
  have hle : ¬ (requests.length > 5) := by omega
  have hvl : (validateUrlRequests validUrl requests).1.length +
      (validateUrlRequests validUrl requests).2.length = requests.length := by
    have hval : validateUrlRequests validUrl requests =
        validateLoop validUrl (enumFrom 0 requests) [] [] [] := by
      simp [validateUrlRequests, h0, hle]
    rw [hval]
    have hloop := validateLoop_length validUrl (enumFrom 0 requests) [] [] []
    rw [enumFrom_length] at hloop
    simpa using hloop
  have hproc := processValid_length urls gen ids now requests
    (validateUrlRequests validUrl requests).1 0 0
  show (processValid urls gen ids now requests
      (validateUrlRequests validUrl requests).1 0 0).1.length +
    ((validateUrlRequests validUrl requests).2.map
        (fun e => (⟨Int.ofNat e.index, joinMessages e.errors⟩ : IndexedError)) ++
      (processValid urls gen ids now requests
        (validateUrlRequests validUrl requests).1 0 0).2).length = requests.length
  rw [List.length_append, List.length_map]
  omega

/-- C2 witness: a 3-request batch (one valid, one malformed URL, one
too-short custom code) accounts for all three requests. -/
theorem createUrls_accounting_witness :
    (1 ≤ ([(⟨"https://a.example", none, none⟩ : CreateUrlRequest),
           ⟨"", none, none⟩, ⟨"https://b.example", none, some "ab"⟩]).length ∧
     ([(⟨"https://a.example", none, none⟩ : CreateUrlRequest),
       ⟨"", none, none⟩, ⟨"https://b.example", none, some "ab"⟩]).length ≤ 5) ∧
    (createUrls [] (fun k => "gen" ++ Nat.repr k) (fun j => "id" ++ Nat.repr j) 0
        (fun _ => true)
        [⟨"https://a.example", none, none⟩, ⟨"", none, none⟩,
         ⟨"https://b.example", none, some "ab"⟩]).1.success.length +
      (createUrls [] (fun k => "gen" ++ Nat.repr k) (fun j => "id" ++ Nat.repr j) 0
        (fun _ => true)
        [⟨"https://a.example", none, none⟩, ⟨"", none, none⟩,
         ⟨"https://b.example", none, some "ab"⟩]).1.errors.length =
      ([(⟨"https://a.example", none, none⟩ : CreateUrlRequest),
        ⟨"", none, none⟩, ⟨"https://b.example", none, some "ab"⟩]).length := by
  refine ⟨by decide, ?_⟩
  exact createUrls_accounting [] (fun k => "gen" ++ Nat.repr k)
    (fun j => "id" ++ Nat.repr j) 0 (fun _ => true)
    [⟨"https://a.example", none, none⟩, ⟨"", none, none⟩,
     ⟨"https://b.example", none, some "ab"⟩] (by decide) (by decide)

/-- One click round-trips when its timestamp's encoding decodes back. -/
theorem click_roundtrip (enc : Int → String) (dec : String → Int)
    (c : ClickEvent) (h : dec (enc c.timestamp) = c.timestamp) :
    deserializeClick dec (serializeClick enc c) = c := by
  cases c
  simp only [serializeClick, deserializeClick] at *
  simp [h]

/-- Mapping a function that fixes every member is the identity. -/
theorem map_self_of_mem {α : Type} {f : α → α} :
    ∀ {l : List α}, (∀ a ∈ l, f a = a) → l.map f = l := by
  intro l
  induction l with
  | nil => intro _; rfl
  | cons a rest ih =>
    intro h
    simp only [List.map_cons]
    rw [h a (List.mem_cons_self a rest),
      ih (fun b hb => h b (List.mem_cons_of_mem a hb))]

/-- One record round-trips when each of its timestamps decodes back. -/
theorem url_roundtrip (enc : Int → String) (dec : String → Int)
    (u : ShortUrl) (h : ∀ t ∈ urlTimestamps u, dec (enc t) = t) :
    deserializeUrl dec (serializeUrl enc u) = u := by
  have hc : dec (enc u.createdAt) = u.createdAt :=
    h u.createdAt (by simp [urlTimestamps])
  have he : dec (enc u.expiresAt) = u.expiresAt :=
    h u.expiresAt (by simp [urlTimestamps])
  have hclicks : ∀ c ∈ u.clicks,
      deserializeClick dec (serializeClick enc c) = c := by
    intro c hcmem
    refine click_roundtrip enc dec c (h c.timestamp ?_)
    simp only [urlTimestamps, List.mem_cons]
    refine Or.inr (Or.inr ?_)
    simp only [List.mem_flatMap]
    exact ⟨c, hcmem, by simp [clickTimestamps]⟩
  show (⟨u.id, u.originalUrl, u.shortcode, dec (enc u.createdAt),
    dec (enc u.expiresAt), u.validityMinutes,
    (u.clicks.map (serializeClick enc)).map (deserializeClick dec),
    u.isCustomShortcode⟩ : ShortUrl) = u
  rw [hc, he, List.map_map,
    map_self_of_mem (f := deserializeClick dec ∘ serializeClick enc)
      (fun c hcmem => hclicks c hcmem)]

/-- C8: round-trip persistence — saving a collection and loading it back
yields the same records field for field, including every timestamp, to the
precision stored (hypothesis: the `Date.toISOString` encoding `enc` and the
`new Date(string)` decoding `dec` invert each other on the timestamps
present, which is exactly millisecond precision); in particular the number
of records and the total click count are preserved. -/
theorem saveUrls_loadUrls_roundtrip (enc : Int → String) (dec : String → Int)
    (urls : List ShortUrl)
    (h : ∀ t ∈ allTimestamps urls, dec (enc t) = t) :
    loadUrls dec (some (saveUrls enc urls)) = urls ∧
    (loadUrls dec (some (saveUrls enc urls))).length = urls.length ∧
    totalClicksOf (loadUrls dec (some (saveUrls enc urls))) =
      totalClicksOf urls := by
  have hmain : loadUrls dec (some (saveUrls enc urls)) = urls := by
    simp only [loadUrls, saveUrls, List.map_map]
    refine map_self_of_mem ?_
    intro u hu
    refine url_roundtrip enc dec u ?_
    intro t ht
    refine h t ?_
    simp only [allTimestamps, List.mem_flatMap]
    exact ⟨u, hu, ht⟩
  exact ⟨hmain, by rw [hmain], by rw [hmain]⟩

/-- C8 witness: a two-record, two-click collection with a concrete
injective timestamp codec round-trips exactly. -/
theorem saveUrls_loadUrls_roundtrip_witness :
    (∀ t ∈ allTimestamps
        [(⟨"i1", "https://x.example", "abc123", 100, 1900100, 30,
           [⟨"c1", 500, "direct", "ua", none, none⟩,
            ⟨"c2", 900, "https://r.example", "ua2", some "1.2.3.4",
             some ⟨some "US", some "NYC"⟩⟩], false⟩ : ShortUrl),
         ⟨"i2", "https://y.example", "promo1", 200, 1900200, 30, [], true⟩],
      (fun s => if s = "t100" then (100 : Int) else if s = "t1900100" then 1900100
                else if s = "t500" then 500 else if s = "t900" then 900
                else if s = "t200" then 200 else if s = "t1900200" then 1900200 else 0)
        ((fun t => "t" ++ Int.repr t) t) = t) ∧
    loadUrls
      (fun s => if s = "t100" then (100 : Int) else if s = "t1900100" then 1900100
                else if s = "t500" then 500 else if s = "t900" then 900
                else if s = "t200" then 200 else if s = "t1900200" then 1900200 else 0)
      (some (saveUrls (fun t => "t" ++ Int.repr t)
        [(⟨"i1", "https://x.example", "abc123", 100, 1900100, 30,
           [⟨"c1", 500, "direct", "ua", none, none⟩,
            ⟨"c2", 900, "https://r.example", "ua2", some "1.2.3.4",
             some ⟨some "US", some "NYC"⟩⟩], false⟩ : ShortUrl),
         ⟨"i2", "https://y.example", "promo1", 200, 1900200, 30, [], true⟩])) =
      [(⟨"i1", "https://x.example", "abc123", 100, 1900100, 30,
         [⟨"c1", 500, "direct", "ua", none, none⟩,
          ⟨"c2", 900, "https://r.example", "ua2", some "1.2.3.4",
           some ⟨some "US", some "NYC"⟩⟩], false⟩ : ShortUrl),
       ⟨"i2", "https://y.example", "promo1", 200, 1900200, 30, [], true⟩] := by
  refine ⟨by decide, ?_⟩
  exact (saveUrls_loadUrls_roundtrip (fun t => "t" ++ Int.repr t)
    (fun s => if s = "t100" then (100 : Int) else if s = "t1900100" then 1900100
              else if s = "t500" then 500 else if s = "t900" then 900
              else if s = "t200" then 200 else if s = "t1900200" then 1900200 else 0)
    [(⟨"i1", "https://x.example", "abc123", 100, 1900100, 30,
       [⟨"c1", 500, "direct", "ua", none, none⟩,
        ⟨"c2", 900, "https://r.example", "ua2", some "1.2.3.4",
         some ⟨some "US", some "NYC"⟩⟩], false⟩ : ShortUrl),
     ⟨"i2", "https://y.example", "promo1", 200, 1900200, 30, [], true⟩]
    (by decide)).1

/-- C4 counterexample: two identical requests (same URL, no custom code)
against a generator that always collides.  Both requests fail creation, but
`requests.findIndex` re-derives the index from field values and lands on
the first occurrence for both, so the entry for the request at position 1
carries index 0 — no error entry carries the failing request's position 1
even though that request failed. -/
theorem createUrls_duplicate_request_index_counterexample :
    (createUrls [(⟨"i0", "https://u.example", "x", 0, 0, 1, [], false⟩ : ShortUrl)]
        (fun _ => "x") (fun _ => "id0") 0 (fun _ => true)
        [⟨"https://dup.example", none, none⟩, ⟨"https://dup.example", none, none⟩]).1 =
      ⟨[], [⟨0, "Unable to generate unique shortcode after multiple attempts"⟩,
            ⟨0, "Unable to generate unique shortcode after multiple attempts"⟩]⟩ ∧
    (∀ e ∈ (createUrls [(⟨"i0", "https://u.example", "x", 0, 0, 1, [], false⟩ : ShortUrl)]
        (fun _ => "x") (fun _ => "id0") 0 (fun _ => true)
        [⟨"https://dup.example", none, none⟩, ⟨"https://dup.example", none, none⟩]).1.errors,
      e.index ≠ 1) := by
  refine ⟨rfl, by decide⟩

/-- Valid lists of the indexed and the plain validation loop agree up to
dropping the carried indices; the error lists coincide. -/
theorem validateLoopIdx_agrees (validUrl : String → Bool) :
    ∀ (l : List (Nat × CreateUrlRequest)) (validI : List (Nat × CreateUrlRequest))
      (errors : List IndexedValidationErrors) (used : List String),
      (validateLoopIdx validUrl l validI errors used).1.map Prod.snd =
        (validateLoop validUrl l (validI.map Prod.snd) errors used).1 ∧
      (validateLoopIdx validUrl l validI errors used).2 =
        (validateLoop validUrl l (validI.map Prod.snd) errors used).2 := by
  intro l
  induction l with
  | nil => intro validI errors used; exact ⟨rfl, rfl⟩
  | cons p rest ih =>
    intro validI errors used
    rcases p with ⟨index, request⟩
    simp only [validateLoopIdx, validateLoop]
    by_cases hc : (checkDuplicate request (validateUrlRequest validUrl request) used).1.isEmpty = true
    · rw [if_pos hc, if_pos hc]
      have := ih (validI ++ [(index, request)]) errors
        (checkDuplicate request (validateUrlRequest validUrl request) used).2
      simpa using this
    · rw [if_neg hc, if_neg hc]
      exact ih validI (errors ++ [⟨index,
        (checkDuplicate request (validateUrlRequest validUrl request) used).1⟩])
        (checkDuplicate request (validateUrlRequest validUrl request) used).2

/-- Every entry of the indexed loop's valid list was already accumulated or
comes from the processed list. -/
theorem validateLoopIdx_mem (validUrl : String → Bool) :
    ∀ (l : List (Nat × CreateUrlRequest)) (validI : List (Nat × CreateUrlRequest))
      (errors : List IndexedValidationErrors) (used : List String)
      (p : Nat × CreateUrlRequest),
      p ∈ (validateLoopIdx validUrl l validI errors used).1 →
      p ∈ validI ∨ p ∈ l := by
  intro l
  induction l with
  | nil =>
    intro validI errors used p hp
    exact Or.inl hp
  | cons q rest ih =>
    intro validI errors used p hp
    rcases q with ⟨index, request⟩
    simp only [validateLoopIdx] at hp
    by_cases hc : (checkDuplicate request (validateUrlRequest validUrl request) used).1.isEmpty = true
    · rw [if_pos hc] at hp
      rcases ih _ _ _ p hp with h | h
      · rcases List.mem_append.mp h with h' | h'
        · exact Or.inl h'
        · have : p = (index, request) := by simpa using h'
          exact Or.inr (this ▸ List.mem_cons_self _ _)
      · exact Or.inr (List.mem_cons_of_mem _ h)
    · rw [if_neg hc] at hp
      rcases ih _ _ _ p hp with h | h
      · exact Or.inl h
      · exact Or.inr (List.mem_cons_of_mem _ h)

/-- Membership in an enumeration locates the element in the underlying
list. -/
theorem enumFrom_mem {α : Type} :
    ∀ (l : List α) (n i : Nat) (a : α), (i, a) ∈ enumFrom n l →
      ∃ m, i = n + m ∧ l.get? m = some a := by
  intro l
  induction l with
  | nil => intro n i a h; exact absurd h (List.not_mem_nil _)
  | cons x rest ih =>
    intro n i a h
    rcases List.mem_cons.mp h with h' | h'
    · have hi : i = n ∧ a = x := by
        constructor <;> [exact congrArg Prod.fst h'; exact congrArg Prod.snd h']
      exact ⟨0, by omega, by simp [hi.2]⟩
    · rcases ih (n + 1) i a h' with ⟨m, hm, hget⟩
      exact ⟨m + 1, by omega, by simpa using hget⟩

/-- The first index found by `jsFindIndexAux` is the unique matching
position, shifted by the start offset. -/
theorem jsFindIndexAux_unique {α : Type} (p : α → Bool) :
    ∀ (l : List α) (i : Nat) (a : α), l.get? i = some a → p a = true →
      (∀ j b, l.get? j = some b → p b = true → j = i) →
      ∀ n, jsFindIndexAux p l n = some (n + i) := by
  intro l
  induction l with
  | nil => intro i a hget; exact absurd hget (by simp)
  | cons x rest ih =>
    intro i a hget hp huniq n
    by_cases hx : p x = true
    · have h0 : 0 = i := huniq 0 x (by simp) hx
      simp only [jsFindIndexAux, hx, if_true]
      rw [← h0]
      simp
    · cases i with
      | zero =>
        have hxa : x = a := by simpa using hget
        rw [← hxa] at hp
        exact absurd hp hx
      | succ i' =>
        have hget' : rest.get? i' = some a := by simpa using hget
        have huniq' : ∀ j b, rest.get? j = some b → p b = true → j = i' := by
          intro j b hj hpb
          have hj1 := huniq (j + 1) b (by simpa using hj) hpb
          omega
        simp only [jsFindIndexAux, hx, if_false]
        have harith : n + (i' + 1) = (n + 1) + i' := by omega
        rw [harith]
        exact ih i' a hget' hp huniq' (n + 1)

/-- In a batch whose requests are pairwise distinct on
(originalUrl, customShortcode), the `findIndex` re-derivation recovers
exactly the request's own position. -/
theorem jsFindIndex_self (requests : List CreateUrlRequest)
    (hd : requests.Pairwise (fun a b =>
      a.originalUrl ≠ b.originalUrl ∨ a.customShortcode ≠ b.customShortcode))
    (i : Nat) (r : CreateUrlRequest) (hget : requests.get? i = some r) :
    jsFindIndex requests (sameRequestFields r) = Int.ofNat i := by
  have hp : sameRequestFields r r = true := by
    simp [sameRequestFields]
  have huniq : ∀ j b, requests.get? j = some b →
      sameRequestFields r b = true → j = i := by
    intro j b hj hpb
    have hfields : b.originalUrl = r.originalUrl ∧
        b.customShortcode = r.customShortcode := by
      simpa [sameRequestFields] using hpb
    by_contra hne
    have hij : i < j ∨ j < i := by omega
    have hpair := List.pairwise_iff_get.mp hd
    rcases hij with hlt | hlt
    · have hi' : i < requests.length := by
        by_contra hbig
        rw [List.get?_eq_none.mpr (by omega)] at hget
        cases hget
      have hj' : j < requests.length := by
        by_contra hbig
        rw [List.get?_eq_none.mpr (by omega)] at hj
        cases hj
      have := hpair ⟨i, hi'⟩ ⟨j, hj'⟩ hlt
      rw [List.get?_eq_get hi'] at hget
      rw [List.get?_eq_get hj'] at hj
      cases hget; cases hj
      rcases this with h | h
      · exact h hfields.1.symm
      · exact h hfields.2.symm
    · have hi' : i < requests.length := by
        by_contra hbig
        rw [List.get?_eq_none.mpr (by omega)] at hget
        cases hget
      have hj' : j < requests.length := by
        by_contra hbig
        rw [List.get?_eq_none.mpr (by omega)] at hj
        cases hj
      have := hpair ⟨j, hj'⟩ ⟨i, hi'⟩ hlt
      rw [List.get?_eq_get hi'] at hget
      rw [List.get?_eq_get hj'] at hj
      cases hget; cases hj
      rcases this with h | h
      · exact h hfields.1
      · exact h hfields.2
  have haux := jsFindIndexAux_unique (sameRequestFields r) requests i r hget hp huniq 0
  simp only [jsFindIndex, haux, Nat.zero_add]

/-- When every carried index re-derives through `findIndex`, the plain and
the indexed processing loops coincide. -/
theorem processValid_eq_idx (urls : List ShortUrl) (gen ids : Nat → String)
    (now : Int) (requests : List CreateUrlRequest) :
    ∀ (lIdx : List (Nat × CreateUrlRequest)) (k j : Nat),
      (∀ p ∈ lIdx, jsFindIndex requests (sameRequestFields p.2) = Int.ofNat p.1) →
      processValid urls gen ids now requests (lIdx.map Prod.snd) k j =
        processValidIdx urls gen ids now lIdx k j := by
  intro lIdx
  induction lIdx with
  | nil => intro k j _; rfl
  | cons p rest ih =>
    intro k j h
    rcases p with ⟨index, request⟩
    simp only [List.map_cons]
    rcases hs : createSingleUrl urls gen k (ids j) now request with ⟨res, k'⟩
    rcases res with msg | shortUrl
    · simp only [processValid, processValidIdx, hs]
      rw [ih k' j (fun q hq => h q (List.mem_cons_of_mem _ hq)),
        h (index, request) (List.mem_cons_self _ _)]
    · simp only [processValid, processValidIdx, hs]
      rw [ih k' (j + 1) (fun q hq => h q (List.mem_cons_of_mem _ hq))]

/-- C4 as amended: `createUrls` error indices are validation positions for
validation failures and `findIndex`-re-derived positions for creation
failures, which point at the first request with the same
(originalUrl, customShortcode); whenever those field pairs are pairwise
distinct in the batch — in particular never a position in the filtered
valid subsequence — every entry carries the failing request's own original
position, i.e. the response coincides with the reference `createUrlsIndexed`
that carries true original positions. -/
theorem createUrls_indices_original (urls : List ShortUrl)
    (gen ids : Nat → String) (now : Int) (validUrl : String → Bool)
    (requests : List CreateUrlRequest)
    (hd : requests.Pairwise (fun a b =>
      a.originalUrl ≠ b.originalUrl ∨ a.customShortcode ≠ b.customShortcode)) :
    createUrls urls gen ids now validUrl requests =
      createUrlsIndexed urls gen ids now validUrl requests := by
  by_cases h0 : (requests.length == 0) = true
  · simp [createUrls, createUrlsIndexed, validateUrlRequests,
      validateUrlRequestsIdx, h0, processValid, processValidIdx]
  · by_cases h5 : requests.length > 5
    · simp [createUrls, createUrlsIndexed, validateUrlRequests,
        validateUrlRequestsIdx, h0, h5, processValid, processValidIdx]
    · have hagree := validateLoopIdx_agrees validUrl (enumFrom 0 requests) [] [] []
      simp only [List.map_nil] at hagree
      have hVI : validateUrlRequestsIdx validUrl requests =
          validateLoopIdx validUrl (enumFrom 0 requests) [] [] [] := by
        simp [validateUrlRequestsIdx, h0, h5]
      have hV : validateUrlRequests validUrl requests =
          validateLoop validUrl (enumFrom 0 requests) [] [] [] := by
        simp [validateUrlRequests, h0, h5]
      have hidx : ∀ p ∈ (validateLoopIdx validUrl (enumFrom 0 requests) [] [] []).1,
          jsFindIndex requests (sameRequestFields p.2) = Int.ofNat p.1 := by
        intro p hp
        rcases validateLoopIdx_mem validUrl (enumFrom 0 requests) [] [] [] p hp with
          h | h
        · exact absurd h (List.not_mem_nil p)
        · rcases p with ⟨i, r⟩
          rcases enumFrom_mem requests 0 i r h with ⟨m, hm, hget⟩
          have him : i = m := by omega
          exact him ▸ jsFindIndex_self requests hd m r hget
      have hproc := processValid_eq_idx urls gen ids now requests
        (validateLoopIdx validUrl (enumFrom 0 requests) [] [] []).1 0 0 hidx
      show (⟨⟨(processValid urls gen ids now requests
          (validateUrlRequests validUrl requests).1 0 0).1,
          (validateUrlRequests validUrl requests).2.map
            (fun e => ⟨Int.ofNat e.index, joinMessages e.errors⟩) ++
          (processValid urls gen ids now requests
            (validateUrlRequests validUrl requests).1 0 0).2⟩,
        if (processValid urls gen ids now requests
            (validateUrlRequests validUrl requests).1 0 0).1.length > 0
        then urls ++ (processValid urls gen ids now requests
          (validateUrlRequests validUrl requests).1 0 0).1 else urls⟩ :
          CreateUrlsResponse × List ShortUrl) =
        ⟨⟨(processValidIdx urls gen ids now
            (validateUrlRequestsIdx validUrl requests).1 0 0).1,
          (validateUrlRequestsIdx validUrl requests).2.map
            (fun e => ⟨Int.ofNat e.index, joinMessages e.errors⟩) ++
          (processValidIdx urls gen ids now
            (validateUrlRequestsIdx validUrl requests).1 0 0).2⟩,
        if (processValidIdx urls gen ids now
            (validateUrlRequestsIdx validUrl requests).1 0 0).1.length > 0
        then urls ++ (processValidIdx urls gen ids now
          (validateUrlRequestsIdx validUrl requests).1 0 0).1 else urls⟩
      rw [hV, hVI, ← hagree.1, ← hagree.2, hproc]

/-- C4 amended witness: a batch with distinct field pairs (one doomed custom
code, one fresh) reports indices exactly as the reference implementation
does. -/
theorem createUrls_indices_original_witness :
    ([(⟨"https://a.example", none, some "taken1"⟩ : CreateUrlRequest),
      ⟨"https://b.example", none, none⟩].Pairwise (fun a b =>
        a.originalUrl ≠ b.originalUrl ∨ a.customShortcode ≠ b.customShortcode)) ∧
    createUrls [(⟨"i0", "https://u.example", "taken1", 0, 0, 1, [], false⟩ : ShortUrl)]
        (fun k => "g" ++ Nat.repr k) (fun j => "id" ++ Nat.repr j) 0 (fun _ => true)
        [⟨"https://a.example", none, some "taken1"⟩, ⟨"https://b.example", none, none⟩] =
      createUrlsIndexed [(⟨"i0", "https://u.example", "taken1", 0, 0, 1, [], false⟩ : ShortUrl)]
        (fun k => "g" ++ Nat.repr k) (fun j => "id" ++ Nat.repr j) 0 (fun _ => true)
        [⟨"https://a.example", none, some "taken1"⟩, ⟨"https://b.example", none, none⟩] := by
  refine ⟨by decide, ?_⟩
  exact createUrls_indices_original
    [(⟨"i0", "https://u.example", "taken1", 0, 0, 1, [], false⟩ : ShortUrl)]
    (fun k => "g" ++ Nat.repr k) (fun j => "id" ++ Nat.repr j) 0 (fun _ => true)
    [⟨"https://a.example", none, some "taken1"⟩, ⟨"https://b.example", none, none⟩]
    (by decide)

/-- Error accumulator of the validation loop is append-only. -/
theorem validateLoop_errors_mono (validUrl : String → Bool) :
    ∀ (l : List (Nat × CreateUrlRequest)) (valid : List CreateUrlRequest)
      (errors : List IndexedValidationErrors) (used : List String)
      (e : IndexedValidationErrors), e ∈ errors →
      e ∈ (validateLoop validUrl l valid errors used).2 := by
  intro l
  induction l with
  | nil => intro valid errors used e he; exact he
  | cons p rest ih =>
    intro valid errors used e he
    rcases p with ⟨index, request⟩
    simp only [validateLoop]
    by_cases hc : (checkDuplicate request (validateUrlRequest validUrl request) used).1.isEmpty = true
    · rw [if_pos hc]
      exact ih _ _ _ e he
    · rw [if_neg hc]
      exact ih _ _ _ e (List.mem_append_left _ he)

/-- Used-set update of `checkDuplicate` does not depend on the error
accumulator. -/
theorem checkDuplicate_used_indep (request : CreateUrlRequest)
    (requestErrors : List ValidationError) (used : List String) :
    (checkDuplicate request requestErrors used).2 =
      (checkDuplicate request [] used).2 := by
  cases hcs : request.customShortcode with
  | none => simp [checkDuplicate, hcs]
  | some s =>
    simp only [checkDuplicate, hcs]
    by_cases hcond : (s ≠ "" && jsTrim s ≠ "") = true
    · rw [if_pos hcond, if_pos hcond]
      by_cases hmem : jsTrim s ∈ used
      · rw [if_pos hmem, if_pos hmem]
      · rw [if_neg hmem, if_neg hmem]
    · rw [if_neg hcond, if_neg hcond]

/-- The used set only grows along `checkDuplicate`. -/
theorem checkDuplicate_used_mono (request : CreateUrlRequest)
    (requestErrors : List ValidationError) (used : List String)
    (x : String) (hx : x ∈ used) :
    x ∈ (checkDuplicate request requestErrors used).2 := by
  cases hcs : request.customShortcode with
  | none => simpa [checkDuplicate, hcs] using hx
  | some s =>
    simp only [checkDuplicate, hcs]
    by_cases hcond : (s ≠ "" && jsTrim s ≠ "") = true
    · rw [if_pos hcond]
      by_cases hmem : jsTrim s ∈ used
      · rw [if_pos hmem]; exact hx
      · rw [if_neg hmem]; exact List.mem_append_left _ hx
    · rw [if_neg hcond]; exact hx

/-- Composition of the validation loop over an append, with the
intermediate used set given by `usedAfter`. -/
theorem validateLoop_append (validUrl : String → Bool) :
    ∀ (l₁ l₂ : List (Nat × CreateUrlRequest)) (valid : List CreateUrlRequest)
      (errors : List IndexedValidationErrors) (used : List String),
      validateLoop validUrl (l₁ ++ l₂) valid errors used =
        validateLoop validUrl l₂
          (validateLoop validUrl l₁ valid errors used).1
          (validateLoop validUrl l₁ valid errors used).2
          (usedAfter l₁ used) := by
  intro l₁
  induction l₁ with
  | nil => intro l₂ valid errors used; rfl
  | cons p rest ih =>
    intro l₂ valid errors used
    rcases p with ⟨index, request⟩
    simp only [List.cons_append, validateLoop, usedAfter]
    rw [checkDuplicate_used_indep request (validateUrlRequest validUrl request) used] at *
    by_cases hc : (checkDuplicate request (validateUrlRequest validUrl request) used).1.isEmpty = true
    · rw [if_pos hc, if_pos hc]
      exact ih l₂ _ _ _
    · rw [if_neg hc, if_neg hc]
      exact ih l₂ _ _ _

/-- The used set only grows along a whole prefix. -/
theorem usedAfter_mono :
    ∀ (l : List (Nat × CreateUrlRequest)) (used : List String) (x : String),
      x ∈ used → x ∈ usedAfter l used := by
  intro l
  induction l with
  | nil => intro used x hx; exact hx
  | cons p rest ih =>
    intro used x hx
    rcases p with ⟨index, request⟩
    simp only [usedAfter]
    exact ih _ x (checkDuplicate_used_mono request [] used x hx)

/-- A request with a truthy custom shortcode registers its trimmed code in
the used set of any prefix containing it. -/
theorem usedAfter_registers :
    ∀ (l : List (Nat × CreateUrlRequest)) (used : List String)
      (i : Nat) (r : CreateUrlRequest) (s : String),
      (i, r) ∈ l → r.customShortcode = some s → s ≠ "" → jsTrim s ≠ "" →
      jsTrim s ∈ usedAfter l used := by
  intro l
  induction l with
  | nil => intro used i r s h; exact absurd h (List.not_mem_nil _)
  | cons p rest ih =>
    intro used i r s hmem hcs hne htne
    rcases p with ⟨index, request⟩
    rcases List.mem_cons.mp hmem with h | h
    · have hreq : request = r := congrArg Prod.snd h.symm
      subst hreq
      simp only [usedAfter]
      refine usedAfter_mono rest _ (jsTrim s) ?_
      simp only [checkDuplicate, hcs]
      have hcond : (s ≠ "" && jsTrim s ≠ "") = true := by
        simp [hne, htne]
      rw [if_pos hcond]
      by_cases hin : jsTrim s ∈ used
      · rw [if_pos hin]; exact hin
      · rw [if_neg hin]; exact List.mem_append_right _ (by simp)
    · simp only [usedAfter]
      exact ih _ i r s h hcs hne htne

/-- Processing a request whose trimmed custom code is already used flags it
with the duplicate error at its own index, and the entry survives to the
end of the loop. -/
theorem validateLoop_flags_duplicate (validUrl : String → Bool)
    (j : Nat) (rj : CreateUrlRequest) (sj : String)
    (l₂ : List (Nat × CreateUrlRequest)) (valid : List CreateUrlRequest)
    (errors : List IndexedValidationErrors) (used : List String)
    (hcs : rj.customShortcode = some sj) (hne : sj ≠ "") (htne : jsTrim sj ≠ "")
    (hused : jsTrim sj ∈ used) :
    ∃ es, (⟨j, es⟩ : IndexedValidationErrors) ∈
        (validateLoop validUrl ((j, rj) :: l₂) valid errors used).2 ∧
      duplicateShortcodeError ∈ es := by
  have hchk : (checkDuplicate rj (validateUrlRequest validUrl rj) used).1 =
      validateUrlRequest validUrl rj ++ [duplicateShortcodeError] := by
    simp only [checkDuplicate, hcs]
    have hcond : (sj ≠ "" && jsTrim sj ≠ "") = true := by
      simp [hne, htne]
    rw [if_pos hcond, if_pos hused]
  have hnotempty : ¬ ((checkDuplicate rj (validateUrlRequest validUrl rj) used).1.isEmpty = true) := by
    rw [hchk]
    simp
  refine ⟨validateUrlRequest validUrl rj ++ [duplicateShortcodeError], ?_, by simp⟩
  simp only [validateLoop]
  rw [if_neg hnotempty]
  refine validateLoop_errors_mono validUrl l₂ valid _ _ _ ?_
  rw [hchk]
  exact List.mem_append_right _ (by simp)

/-- Enumeration distributes over append. -/
theorem enumFrom_append {α : Type} :
    ∀ (l₁ l₂ : List α) (n : Nat),
      enumFrom n (l₁ ++ l₂) = enumFrom n l₁ ++ enumFrom (n + l₁.length) l₂ := by
  intro l₁
  induction l₁ with
  | nil => intro l₂ n; simp [enumFrom]
  | cons x rest ih =>
    intro l₂ n
    simp only [List.cons_append, enumFrom, List.length_cons, List.append_eq]
    rw [ih l₂ (n + 1)]
    have harith : n + 1 + rest.length = n + (rest.length + 1) := by omega
    rw [harith]

/-- Splitting a list at a known position. -/
theorem take_cons_drop {α : Type} :
    ∀ (l : List α) (j : Nat) (a : α), l.get? j = some a →
      l.take j ++ a :: l.drop (j + 1) = l := by
  intro l
  induction l with
  | nil => intro j a h; exact absurd h (by simp)
  | cons x rest ih =>
    intro j a h
    cases j with
    | zero =>
      have : x = a := by simpa using h
      simp [this]
    | succ j' =>
      have h' : rest.get? j' = some a := by simpa using h
      simp only [List.take_succ_cons, List.drop_succ_cons, List.cons_append]
      rw [ih j' a h']

/-- Converse of `enumFrom_mem`: a located element appears in the
enumeration. -/
theorem mem_enumFrom {α : Type} :
    ∀ (l : List α) (m n : Nat) (a : α), l.get? m = some a →
      (n + m, a) ∈ enumFrom n l := by
  intro l
  induction l with
  | nil => intro m n a h; exact absurd h (by simp)
  | cons x rest ih =>
    intro m n a h
    cases m with
    | zero =>
      have : x = a := by simpa using h
      simp [enumFrom, this]
    | succ m' =>
      have h' : rest.get? m' = some a := by simpa using h
      have := ih m' (n + 1) a h'
      simp only [enumFrom, List.mem_cons]
      right
      have harith : n + (m' + 1) = (n + 1) + m' := by omega
      rw [harith]
      exact this

/-- C5: within one batch a custom shortcode (trimmed, case-sensitively
compared) repeated across requests marks every repeat after the first
occurrence with the in-batch duplicate error at the repeat's own index
(first conjunct); in particular two otherwise-valid requests sharing one
fresh custom shortcode yield exactly one success and a single
duplicate-in-batch error at the second request's index (second conjunct). -/
theorem duplicate_shortcode_in_batch (validUrl : String → Bool) :
    (∀ (requests : List CreateUrlRequest) (i j : Nat)
       (ri rj : CreateUrlRequest) (si sj : String),
       requests.length ≤ 5 →
       requests.get? i = some ri → requests.get? j = some rj → i < j →
       ri.customShortcode = some si → si ≠ "" → jsTrim si ≠ "" →
       rj.customShortcode = some sj → sj ≠ "" → jsTrim sj ≠ "" →
       jsTrim si = jsTrim sj →
       ∃ es, (⟨j, es⟩ : IndexedValidationErrors) ∈
           (validateUrlRequests validUrl requests).2 ∧
         duplicateShortcodeError ∈ es) ∧
    (∀ (urls : List ShortUrl) (gen ids : Nat → String) (now : Int)
       (u u' c : String),
       validUrl (jsTrim u) = true → validUrl (jsTrim u') = true →
       jsTrim u ≠ "" → jsTrim u' ≠ "" →
       isValidShortcodeFmt (jsTrim c) = true → c ≠ "" → jsTrim c ≠ "" →
       isShortcodeInUse urls (sanitizeShortcode c) = false →
       (createUrls urls gen ids now validUrl
         [⟨u, none, some c⟩, ⟨u', none, some c⟩]).1.success.length = 1 ∧
       (createUrls urls gen ids now validUrl
         [⟨u, none, some c⟩, ⟨u', none, some c⟩]).1.errors =
         [⟨1, "Duplicate shortcode in request"⟩]) := by
  constructor
  · intro requests i j ri rj si sj h5 hgi hgj hij hcsi hnei htnei hcsj hnej htnej heq
    have hjlen : j < requests.length := by
      by_contra hbig
      rw [List.get?_eq_none.mpr (by omega)] at hgj
      cases hgj
    have h0 : (requests.length == 0) = false := by
      rw [beq_eq_false_iff_ne]
      omega
    have h5' : ¬ requests.length > 5 := by omega
    have hval : validateUrlRequests validUrl requests =
        validateLoop validUrl (enumFrom 0 requests) [] [] [] := by
      simp [validateUrlRequests, h0, h5']
    have hsplit : requests.take j ++ rj :: requests.drop (j + 1) = requests :=
      take_cons_drop requests j rj hgj
    have htakelen : (requests.take j).length = j := by
      rw [List.length_take]
      omega
    have henum : enumFrom 0 requests =
        enumFrom 0 (requests.take j) ++
          (j, rj) :: enumFrom (j + 1) (requests.drop (j + 1)) := by
      conv_lhs => rw [← hsplit]
      rw [enumFrom_append]
      simp [enumFrom, htakelen]
    have hgtake : (requests.take j).get? i = some ri := by
      rw [List.get?_take hij]
      exact hgi
    have hmemtake : (i, ri) ∈ enumFrom 0 (requests.take j) := by
      have := mem_enumFrom (requests.take j) i 0 ri hgtake
      simpa using this
    have hused : jsTrim sj ∈ usedAfter (enumFrom 0 (requests.take j)) [] := by
      rw [← heq]
      exact usedAfter_registers (enumFrom 0 (requests.take j)) [] i ri si
        hmemtake hcsi hnei htnei
    rw [hval, henum, validateLoop_append]
    exact validateLoop_flags_duplicate validUrl j rj sj _ _ _ _
      hcsj hnej htnej hused
  · intro urls gen ids now u u' c hu hu' hut hut' hfmt hc0 hct hin
    have hu0 : (u == "") = false := by
      rw [beq_eq_false_iff_ne]
      intro h
      exact hut (by rw [h]; rfl)
    have hu0' : (u' == "") = false := by
      rw [beq_eq_false_iff_ne]
      intro h
      exact hut' (by rw [h]; rfl)
    have hutb : (jsTrim u == "") = false := by
      rw [beq_eq_false_iff_ne]; exact hut
    have hutb' : (jsTrim u' == "") = false := by
      rw [beq_eq_false_iff_ne]; exact hut'
    have hvA : validateUrlRequest validUrl ⟨u, none, some c⟩ = [] := by
      simp [validateUrlRequest, hu0, hutb, hu, hct, hfmt]
    have hvB : validateUrlRequest validUrl ⟨u', none, some c⟩ = [] := by
      simp [validateUrlRequest, hu0', hutb', hu', hct, hfmt]
    have hval : validateUrlRequests validUrl
        [⟨u, none, some c⟩, ⟨u', none, some c⟩] =
        ([⟨u, none, some c⟩], [⟨1, [duplicateShortcodeError]⟩]) := by
      simp [validateUrlRequests, enumFrom, validateLoop, hvA, hvB,
        checkDuplicate, hc0, hct]
    have hsingleA : createSingleUrl urls gen 0 (ids 0) now ⟨u, none, some c⟩ =
        (.ok (mkShortUrl (ids 0) (sanitizeUrl u) (sanitizeShortcode c) now 30 true), 0) := by
      simp [createSingleUrl, hasCustomShortcode, hc0, hct, hin, validityOrDefault]
    constructor
    · simp [createUrls, hval, processValid, hsingleA]
    · simp [createUrls, hval, processValid, hsingleA, joinMessages,
        duplicateShortcodeError]
      decide

/-- C5 witness: both conjuncts at a concrete batch — the repeated "promo"
code in ["https://a.example" with "promo", "https://b.example" with
"promo"] flags index 1 with the duplicate error, and against an empty store
the batch yields one success plus the single duplicate error at index 1. -/
theorem duplicate_shortcode_in_batch_witness :
    (∃ es, (⟨1, es⟩ : IndexedValidationErrors) ∈
        (validateUrlRequests (fun _ => true)
          [⟨"https://a.example", none, some "promo"⟩,
           ⟨"https://b.example", none, some "promo"⟩]).2 ∧
      duplicateShortcodeError ∈ es) ∧
    (createUrls [] (fun k => "g" ++ Nat.repr k) (fun j => "id" ++ Nat.repr j) 0
        (fun _ => true)
        [⟨"https://a.example", none, some "promo"⟩,
         ⟨"https://b.example", none, some "promo"⟩]).1.success.length = 1 ∧
    (createUrls [] (fun k => "g" ++ Nat.repr k) (fun j => "id" ++ Nat.repr j) 0
        (fun _ => true)
        [⟨"https://a.example", none, some "promo"⟩,
         ⟨"https://b.example", none, some "promo"⟩]).1.errors =
      [⟨1, "Duplicate shortcode in request"⟩] := by
  refine ⟨?_, ?_⟩
  · exact (duplicate_shortcode_in_batch (fun _ => true)).1
      [⟨"https://a.example", none, some "promo"⟩,
       ⟨"https://b.example", none, some "promo"⟩] 0 1
      ⟨"https://a.example", none, some "promo"⟩
      ⟨"https://b.example", none, some "promo"⟩ "promo" "promo"
      (by decide) rfl rfl (by decide) rfl (by decide) (by decide) rfl
      (by decide) (by decide) rfl
  · exact (duplicate_shortcode_in_batch (fun _ => true)).2
      [] (fun k => "g" ++ Nat.repr k) (fun j => "id" ++ Nat.repr j) 0
      "https://a.example" "https://b.example" "promo"
      rfl rfl (by decide) (by decide) (by decide) (by decide) (by decide) rfl

end UrlShortener
